import Mathlib

/-!
Verification of the timeline reconciliation and assembly engine of the
Subtitles_Tool repository (`src/srt_to_mp3.py`), as a shallow embedding in
Lean 4.  Python floats are modelled by `ℚ`; the external speech-synthesis
and audio-decoding collaborators are modelled by an oracle
`synth : String → Option ℚ` returning the rendered duration of a text, or
`none` for a failure.  A Python exception escaping a function is modelled
by `Option.none` at the corresponding Lean definition.

Rational arithmetic is written through the executable wrappers `qAdd`,
`qSub`, `qMul` (proved equal to `+`, `-`, `*` below), and the string
primitives of Python (`strip`, `replace`, `split`, prefix matching) are
implemented over character lists, so that every definition evaluates on
concrete inputs by `decide`.
-/

namespace SubTool

/-! ## Executable rational arithmetic -/

/-- Executable addition on `ℚ` (equal to `+`, see `qAdd_eq`). -/
def qAdd (a b : ℚ) : ℚ := mkRat (a.num * b.den + b.num * a.den) (a.den * b.den)

/-- Executable negation on `ℚ` (equal to `Neg.neg`, see `qNeg_eq`). -/
def qNeg (a : ℚ) : ℚ := mkRat (-a.num) a.den

/-- Executable subtraction on `ℚ` (equal to `-`, see `qSub_eq`). -/
def qSub (a b : ℚ) : ℚ := qAdd a (qNeg b)

/-- Executable multiplication on `ℚ` (equal to `*`, see `qMul_eq`). -/
def qMul (a b : ℚ) : ℚ := mkRat (a.num * b.num) (a.den * b.den)

theorem qAdd_eq (a b : ℚ) : qAdd a b = a + b := by
  unfold qAdd
  rw [Rat.mkRat_eq_div]
  have ha : ((a.den : ℚ)) ≠ 0 := by exact_mod_cast a.den_nz
  have hb : ((b.den : ℚ)) ≠ 0 := by exact_mod_cast b.den_nz
  conv_rhs => rw [← Rat.num_div_den a, ← Rat.num_div_den b]
  push_cast
  field_simp

theorem qNeg_eq (a : ℚ) : qNeg a = -a := by
  unfold qNeg
  rw [Rat.mkRat_eq_div]
  have ha : ((a.den : ℚ)) ≠ 0 := by exact_mod_cast a.den_nz
  conv_rhs => rw [← Rat.num_div_den a]
  push_cast
  field_simp

theorem qSub_eq (a b : ℚ) : qSub a b = a - b := by
  unfold qSub
  rw [qAdd_eq, qNeg_eq]
  ring

theorem qMul_eq (a b : ℚ) : qMul a b = a * b := by
  unfold qMul
  rw [Rat.mkRat_eq_div]
  have ha : ((a.den : ℚ)) ≠ 0 := by exact_mod_cast a.den_nz
  have hb : ((b.den : ℚ)) ≠ 0 := by exact_mod_cast b.den_nz
  conv_rhs => rw [← Rat.num_div_den a, ← Rat.num_div_den b]
  push_cast
  field_simp

/-! ## Python string and number primitives -/

/-- Model of Python `str.strip()` on the character list. -/
def stripChars (cs : List Char) : List Char :=
  ((cs.dropWhile Char.isWhitespace).reverse.dropWhile Char.isWhitespace).reverse

/-- Model of Python `str.strip()`. -/
def pyStrip (s : String) : String := String.mk (stripChars s.toList)

/-- Model of Python `str.isdigit()` on ASCII input: non-empty and all
characters are decimal digits. -/
def pyIsDigit (s : String) : Bool :=
  s.toList ≠ [] && s.toList.all Char.isDigit

/-- Scanner for `pyReplace`: replaces every non-overlapping occurrence of
`pat` left to right, as Python `str.replace` does.  The `skip` counter
consumes the remaining characters of a just-matched occurrence. -/
def replAux (pat rep : List Char) : ℕ → List Char → List Char
  | _, [] => []
  | 0, c :: cs =>
    if pat ≠ [] && pat.isPrefixOf (c :: cs) then
      rep ++ replAux pat rep (pat.length - 1) cs
    else c :: replAux pat rep 0 cs
  | skip + 1, _ :: cs => replAux pat rep skip cs

/-- Model of Python `s.replace(pat, rep)` for non-empty `pat`. -/
def pyReplace (s pat rep : String) : String :=
  String.mk (replAux pat.toList rep.toList 0 s.toList)

/-- Scanner for `pySplitOn`: splits on every non-overlapping occurrence of
`sep` left to right, as Python `str.split(sep)` does; `cur` is the current
field (reversed) and `skip` consumes a just-matched separator. -/
def splitAux (sep : List Char) : ℕ → List Char → List Char → List (List Char)
  | _, cur, [] => [cur.reverse]
  | 0, cur, c :: cs =>
    if sep ≠ [] && sep.isPrefixOf (c :: cs) then
      cur.reverse :: splitAux sep (sep.length - 1) [] cs
    else splitAux sep 0 (c :: cur) cs
  | skip + 1, cur, _ :: cs => splitAux sep skip cur cs

/-- Model of Python `s.split(sep)` for non-empty `sep`. -/
def pySplitOn (s sep : String) : List String :=
  (splitAux sep.toList 0 [] s.toList).map String.mk

/-- Numeric value of a list of decimal digit characters. -/
def digitsVal (cs : List Char) : ℕ :=
  cs.foldl (fun a c => a * 10 + (c.toNat - 48)) 0

/-- Model of Python `float(s)` on the decimal literals this program feeds
it: optional surrounding whitespace, optional sign, digits with an optional
fractional part (at least one digit overall).  Returns `none` where Python
raises `ValueError`.  (Exponent forms never occur in this program.) -/
def parsePyFloat (s : String) : Option ℚ :=
  let cs := stripChars s.toList
  let neg := cs.head? = some '-'
  let cs := if cs.head? = some '-' || cs.head? = some '+' then cs.drop 1 else cs
  let sgn : ℤ := if neg then -1 else 1
  let ip := cs.takeWhile Char.isDigit
  let rest := cs.dropWhile Char.isDigit
  match rest with
  | [] => if ip = [] then none else some (mkRat (sgn * digitsVal ip) 1)
  | '.' :: fr =>
    if fr.all Char.isDigit && (ip ≠ [] || fr ≠ []) then
      some (mkRat (sgn * (digitsVal ip * 10 ^ fr.length + digitsVal fr))
        (10 ^ fr.length))
    else none
  | _ => none

/-- Four-digit, zero-padded decimal rendering of `n < 10000`. -/
def pad4 (n : ℕ) : String :=
  let d := toString n
  String.mk (List.replicate (4 - d.length) '0') ++ d

/-- Drop trailing `'0'` characters (used for the fractional digits of a
decimal rendering). -/
def stripTrailingZeros (s : String) : String :=
  String.mk (s.toList.reverse.dropWhile (· = '0')).reverse

/-- Model of Python `str(x)` for the float values this program produces:
integral values render as `"N.0"`, values with at most four exact decimal
places (everything `round(_, 4)` can return) render with their minimal
fractional digits.  Other rationals cannot arise from the program's own
arithmetic and get a fallback rendering. -/
def pyFloatStr (q : ℚ) : String :=
  if q.den = 1 then toString q.num ++ ".0"
  else if 10000 % q.den = 0 then
    let sgn := if q.num < 0 then "-" else ""
    let n := q.num.natAbs * (10000 / q.den)
    sgn ++ toString (n / 10000) ++ "." ++ stripTrailingZeros (pad4 (n % 10000))
  else toString q.num ++ "/" ++ toString q.den

/-- Round half to even at integer precision, as Python `round` does,
computed on the numerator and denominator (`f` is the floor of `x`, and
`rnum / x.den` its fractional part). -/
def roundHalfEven (x : ℚ) : ℤ :=
  let f := Int.fdiv x.num x.den
  let rnum := x.num - f * x.den
  if 2 * rnum < (x.den : ℤ) then f
  else if (x.den : ℤ) < 2 * rnum then f + 1
  else if f % 2 = 0 then f else f + 1

/-- Model of Python `round(x, 4)`. -/
def pyRound4 (x : ℚ) : ℚ :=
  mkRat (roundHalfEven (qMul x 10000)) 10000

/-! ## CueParser / TimelinePlanner: `kdenlive_format` -/

/-- Model of `parse_time` of the source: converts `"HH:MM:SS,mmm"` to milliseconds,
`float(h)*3600000 + float(m)*60000 + float(s)*1000 + float(ms)`.
The source raises on malformed input (wrong number of `:`/`,` fields or a
bad float literal); in its only calling context the regex has already
validated the shape, so failure, modelled by `none`, is unreachable. -/
def parse_time (value : String) : Option ℚ :=
  match pySplitOn value ":" with
  | [h, m, s₁] =>
    match pySplitOn s₁ "," with
    | [s, ms] => do
      let hv ← parsePyFloat h
      let mv ← parsePyFloat m
      let sv ← parsePyFloat s
      let msv ← parsePyFloat ms
      pure (qAdd (qAdd (qAdd (qMul hv 3600000) (qMul mv 60000))
        (qMul sv 1000)) msv)
    | _ => none
  | _ => none

/-- Character class of the regex `.` (any character except a newline). -/
def dotChar (c : Char) : Bool := c ≠ '\n'

/-- Predicate list for the 29-character regex
`^\d{2}:\d{2}:\d{2},\d{3}.-->.\d{2}:\d{2}:\d{2},\d{3}$`. -/
def timeRangePattern : List (Char → Bool) :=
  [Char.isDigit, Char.isDigit, (· = ':'), Char.isDigit, Char.isDigit, (· = ':'),
   Char.isDigit, Char.isDigit, (· = ','), Char.isDigit, Char.isDigit, Char.isDigit,
   dotChar, (· = '-'), (· = '-'), (· = '>'), dotChar,
   Char.isDigit, Char.isDigit, (· = ':'), Char.isDigit, Char.isDigit, (· = ':'),
   Char.isDigit, Char.isDigit, (· = ','), Char.isDigit, Char.isDigit, Char.isDigit]

/-- Model of `re.fullmatch` against the fixed-shape time-range regex. -/
def matchesTimeRange (line : String) : Bool :=
  let cs := line.toList
  cs.length = 29 && (cs.zip timeRangePattern).all fun p => p.2 p.1

/-- Model of `extract_time_range` of the source: regex check, split on `" --> "`
into exactly two parts, parse both.  Returns `none` when the line is not a
valid time range. -/
def extract_time_range (line : String) : Option (ℚ × ℚ) :=
  if matchesTimeRange line then
    match pySplitOn line " --> " with
    | [a, b] =>
      match parse_time a, parse_time b with
      | some l, some r => some (l, r)
      | _, _ => none
    | _ => none
  else none

/-- The scan loop of `kdenlive_format`: `for i in range(0, len(lines), 3)`,
re-expressed by consuming three lines per iteration.  Each iteration reads
`lines[i]`; when the (stripped) index line is a digit literal it then reads
`lines[i+1]` and, regardless of whether the time range validated,
`lines[i+2]` — an out-of-range read (a trailing group of fewer than three
lines) raises `IndexError`, modelled by `none`.  A valid time-range line
appends the wait token `token ++ str(start - last)` and updates `last`; a
non-empty (stripped) text line appends the text.  A non-digit index line
skips the whole group. -/
def kdGo (token : String) (last : ℚ) (acc : List String) :
    List String → Option (List String)
  | [] => some acc
  | [l0] => if pyIsDigit (pyStrip l0) then none else some acc
  | [l0, _] => if pyIsDigit (pyStrip l0) then none else some acc
  | l0 :: l1 :: l2 :: rest =>
    if pyIsDigit (pyStrip l0) then
      let p :=
        match extract_time_range (pyStrip l1) with
        | some (s, _) => (acc ++ [token ++ pyFloatStr (qSub s last)], s)
        | none => (acc, last)
      let acc₂ := if pyStrip l2 ≠ "" then p.1 ++ [pyStrip l2] else p.1
      kdGo token p.2 acc₂ rest
    else
      kdGo token last acc rest

/-- Model of `kdenlive_format` of the source: returns `[]` for fewer than three
lines, otherwise runs the scan loop from `last_ms = 0`.  `none` models an
uncaught `IndexError`. -/
def kdenlive_format (lines : List String) (token : String) :
    Option (List String) :=
  if lines.length < 3 then some [] else kdGo token 0 [] lines

/-! ## TimelineAssembler: `text_to_speech` -/

/-- A rendered segment of the final track: the cumulative offset at which
it begins, its actual duration, and its ledger description (`"Silent."`
for silence, the spoken text for speech). -/
structure Segment where
  offset : ℚ
  duration : ℚ
  description : String
deriving DecidableEq

/-- The state threaded through the assembly loop of `text_to_speech`:
the voice-copy counter, `total_ms`, `last_duration_ms`, the durations of
the buffers collected in `audio_parts`, the rendered segments those
appends correspond to, the `history` string, and the per-cue voice files
saved so far (counter value paired with the spoken text). -/
structure AsmState where
  counter : ℕ
  total : ℚ
  lastDur : ℚ
  audioParts : List ℚ
  parts : List Segment
  history : String
  voices : List (ℕ × String)
deriving DecidableEq

/-- The header the `history` accumulator starts from. -/
def histHeader : String := "Time(ms);Duration(ms);Description\n"

/-- Model of `log_entry` of the source: one ledger row,
`str(start).replace(".", ",") ++ "; " ++ str(duration).replace(".", ",")
++ "; " ++ text ++ "\n"`. -/
def log_entry (start_ms duration_ms : ℚ) (text : String) : String :=
  pyReplace (pyFloatStr start_ms) "." "," ++ "; "
    ++ pyReplace (pyFloatStr duration_ms) "." "," ++ "; " ++ text ++ "\n"

/-- Initial assembly state: `counter = 1`, `total_ms = 0`,
`last_duration_ms = 0`, empty collections, history holding the header. -/
def asmInit : AsmState :=
  { counter := 1, total := 0, lastDur := 0, audioParts := [], parts := [],
    history := histHeader, voices := [] }

/-- Model of `re.fullmatch("^" + token + ".+", part)` for the program's
marker `token = "#WAIT:"` (which contains no regex metacharacters, so the
token part of the pattern is a literal): `part` starts with the marker and
is followed by at least one character, none of which is a newline. -/
def isWaitTok (token part : String) : Bool :=
  token.toList.isPrefixOf part.toList
    && decide (token.toList.length < part.toList.length)
    && (part.toList.drop token.toList.length).all dotChar

/-- One iteration of the assembly loop of `text_to_speech` on a single
line.  A line matching the wait-marker regex is a silence instruction:
its numeric payload is `float(part.replace(token, ""))` (a failed parse is
an uncaught `ValueError`, modelled `none`), the compensated gap is
`round(payload - last_duration_ms, 4)`, and only a strictly positive gap
appends a silence buffer, a segment and a ledger row and advances the
clock.  Any other line is speech: the oracle `synth` yields the rendered
duration (or `none` for a synthesis/decoding failure), a segment and a
ledger row are appended, `last_duration_ms` is set and the clock advances;
when `voicesFlag` is set a per-cue voice file is recorded and the counter
incremented. -/
def stepTok (synth : String → Option ℚ) (voicesFlag : Bool) (token : String)
    (st : AsmState) (line : String) : Option AsmState :=
  let part := pyStrip line
  if isWaitTok token part then
    match parsePyFloat (pyReplace part token "") with
    | none => none
    | some g =>
      let wait := pyRound4 (qSub g st.lastDur)
      if 0 < wait then
        some { st with
          audioParts := st.audioParts ++ [wait]
          parts := st.parts ++ [⟨st.total, wait, "Silent."⟩]
          history := st.history ++ log_entry st.total wait "Silent."
          total := qAdd st.total wait }
      else some st
  else
    match synth part with
    | none => none
    | some d =>
      some { st with
        audioParts := st.audioParts ++ [d]
        parts := st.parts ++ [⟨st.total, d, part⟩]
        lastDur := d
        history := st.history ++ log_entry st.total d part
        total := qAdd st.total d
        counter := if voicesFlag then st.counter + 1 else st.counter
        voices := if voicesFlag then st.voices ++ [(st.counter, part)]
                  else st.voices }

/-- The assembly loop over the token lines: stops at the first failing
token, returning the state reached so far and a success flag (the `try`
block of the source: an exception abandons the loop, keeping side effects
already performed). -/
def runTokens (synth : String → Option ℚ) (voicesFlag : Bool)
    (token : String) : AsmState → List String → AsmState × Bool
  | st, [] => (st, true)
  | st, l :: ls =>
    match stepTok synth voicesFlag token st l with
    | none => (st, false)
    | some st₂ => runTokens synth voicesFlag token st₂ ls

/-- The `Data` context of the source (fields relevant to the core). -/
structure Data where
  srt_filename : String := ""
  srt_path : String := ""
  mp3_filename : String := ""
  mp3_path : String := ""
  mp3_voices : Bool := false
  lines : List String := []
  language : String := "pt-br"
  srt_format : String := ""
  token : String := "#WAIT:"
deriving DecidableEq

/-- Model of `Data.validate` of the source: the three path/format strings are
non-empty (Python truthiness) and there is at least one line. -/
def Data.validate (d : Data) : Bool :=
  d.srt_path != "" && d.mp3_path != "" && d.srt_format != ""
    && decide (0 < d.lines.length)

/-- Sum of a list of rationals through the executable addition. -/
def qSum (l : List ℚ) : ℚ := l.foldr qAdd 0

/-- Externally observable outcome of one `text_to_speech` run: the boolean
return value, the history file content if one was written, the duration of
the exported final audio if it was exported, the per-cue voice files
written, and the rendered segments assembled. -/
structure TTSResult where
  ok : Bool
  historyFile : Option String
  exportedDuration : Option ℚ
  voiceFiles : List (ℕ × String)
  segments : List Segment
deriving DecidableEq

/-- Model of `text_to_speech` of the source.  A failed `validate` returns `False`
immediately with nothing written.  Otherwise the loop runs; an exception
(failed wait parse, synthesis or decode failure) reaches the handler:
`False`, no history file, no export, voice files already written remain.
On normal loop exit the history file is written whenever the history
string is non-empty (it always is — it starts with the header), then the
final audio is exported only if `audio_parts` is non-empty (its duration
being the sum of the buffer durations), returning `True`; with no audio
parts the function falls through to `False`. -/
def text_to_speech (synth : String → Option ℚ) (data : Data) : TTSResult :=
  if !data.validate then ⟨false, none, none, [], []⟩
  else
    let r := runTokens synth data.mp3_voices data.token asmInit data.lines
    if !r.2 then ⟨false, none, none, r.1.voices, r.1.parts⟩
    else
      let hist := if r.1.history = "" then none else some r.1.history
      if r.1.audioParts = [] then ⟨false, hist, none, r.1.voices, r.1.parts⟩
      else ⟨true, hist, some (qSum r.1.audioParts), r.1.voices, r.1.parts⟩

/-! ## Derived predicates used to state the claims -/

/-- Sum of the durations of a segment list. -/
def sumDur (l : List Segment) : ℚ := (l.map Segment.duration).sum

/-- The segments partition the timeline starting at `c`: each segment's
offset is the running clock, which advances by its duration. -/
def chainFromB (c : ℚ) : List Segment → Bool
  | [] => true
  | s :: rest => decide (s.offset = c) && chainFromB (c + s.duration) rest

/-- Every segment has a non-negative duration. -/
def allNonnegDur (l : List Segment) : Bool :=
  l.all fun s => decide (0 ≤ s.duration)

/-- A subtitle cue as presented to the parser: its three raw lines,
together with the start and stop milliseconds its time-range line denotes. -/
structure CueLines where
  numLine : String
  timeLine : String
  textLine : String
  start : ℚ
  stop : ℚ
deriving DecidableEq

/-- A well-formed cue: digit-literal index line, a time-range line that
the source's `extract_time_range` resolves to this cue's start and stop,
and a non-blank text line. -/
def wellFormedCue (c : CueLines) : Prop :=
  pyIsDigit (pyStrip c.numLine) = true
    ∧ extract_time_range (pyStrip c.timeLine) = some (c.start, c.stop)
    ∧ pyStrip c.textLine ≠ ""

instance (c : CueLines) : Decidable (wellFormedCue c) := by
  unfold wellFormedCue; infer_instance

/-- The raw line triples of a cue sequence, in order. -/
def cuesLines : List CueLines → List String
  | [] => []
  | c :: rest => c.numLine :: c.timeLine :: c.textLine :: cuesLines rest

/-- The token sequence the claims say the planner emits: for each cue in
order, a wait token carrying this cue's start minus the previous cue's
start (`last`, initially 0), immediately followed by the cue's text. -/
def planFrom (token : String) : ℚ → List CueLines → List String
  | _, [] => []
  | last, c :: rest =>
    (token ++ pyFloatStr (qSub c.start last)) :: pyStrip c.textLine
      :: planFrom token c.start rest

/-- The condition under which the scan of `kdenlive_format` avoids the
out-of-range read: either the line count is a multiple of three, or the
first line of the trailing incomplete group is not a digit literal. -/
def trailingSafe (lines : List String) : Prop :=
  lines.length % 3 = 0
    ∨ ∀ l, (lines.drop (lines.length / 3 * 3)).head? = some l →
        pyIsDigit (pyStrip l) = false

/-! ## Lemmas about the scan loop -/

theorem cuesLines_length (cues : List CueLines) :
    (cuesLines cues).length = 3 * cues.length := by
  induction cues with
  | nil => rfl
  | cons c rest ih => simp [cuesLines, ih]; ring

theorem kdGo_wellFormed (token : String) :
    ∀ (cues : List CueLines) (last : ℚ) (acc : List String),
      (∀ c ∈ cues, wellFormedCue c) →
      kdGo token last acc (cuesLines cues) =
        some (acc ++ planFrom token last cues) := by
  intro cues
  induction cues with
  | nil => intro last acc _; simp [cuesLines, kdGo, planFrom]
  | cons c rest ih =>
    intro last acc h
    obtain ⟨hd, htr, htx⟩ := h c (List.mem_cons_self c rest)
    have hrest : ∀ c₂ ∈ rest, wellFormedCue c₂ := fun c₂ hm =>
      h c₂ (List.mem_cons_of_mem c hm)
    show kdGo token last acc
        (c.numLine :: c.timeLine :: c.textLine :: cuesLines rest) = _
    rw [kdGo]
    simp only [hd, if_true, htr, htx, ne_eq, not_false_eq_true, if_true]
    rw [ih c.start _ hrest]
    simp [planFrom, List.append_assoc]

theorem kdGo_safe (token : String) :
    ∀ (n : ℕ) (lines : List String) (last : ℚ) (acc : List String),
      lines.length ≤ n → trailingSafe lines →
      (kdGo token last acc lines).isSome = true := by
  intro n
  induction n with
  | zero =>
    intro lines last acc hlen _
    cases lines with
    | nil => simp [kdGo]
    | cons a as => simp at hlen
  | succ n ih =>
    intro lines last acc hlen hsafe
    rcases lines with _ | ⟨l0, _ | ⟨l1, _ | ⟨l2, rest⟩⟩⟩
    · simp [kdGo]
    · rcases hsafe with h | h
      · simp at h
      · have hd := h l0 (by simp)
        simp [kdGo, hd]
    · rcases hsafe with h | h
      · simp at h
      · have hd := h l0 (by simp)
        simp [kdGo, hd]
    · have hsafe₂ : trailingSafe rest := by
        rcases hsafe with h | h
        · left
          simp only [List.length_cons] at h
          omega
        · right
          intro l hl
          apply h
          have hidx : (l0 :: l1 :: l2 :: rest).length / 3 * 3
              = rest.length / 3 * 3 + 1 + 1 + 1 := by
            simp only [List.length_cons]
            omega
          rw [hidx, List.drop_succ_cons, List.drop_succ_cons,
            List.drop_succ_cons]
          exact hl
      have hlen₂ : rest.length ≤ n := by
        simp only [List.length_cons] at hlen
        omega
      rw [kdGo]
      by_cases hd : pyIsDigit (pyStrip l0)
      · simp only [hd, if_true]
        exact ih rest _ _ hlen₂ hsafe₂
      · simp only [hd, if_false]
        exact ih rest _ _ hlen₂ hsafe₂

/-! ## Claims C4, C5, C6 -/

/-- C4, as stated, is false: the scan of `kdenlive_format` raises an
uncaught `IndexError` on this input — a valid triple followed by a
trailing one-line group whose line is a digit literal (the scan reads
`lines[4]` out of range). -/
theorem C4_counterexample :
    kdenlive_format ["1", "00:00:01,000 --> 00:00:02,000", "Hello", "2"]
      "#WAIT:" = none := by decide

/-- C4 (amended): the cue parser terminates normally, returning a
(possibly empty) sequence and advancing by exactly three lines per group,
whenever the line count is a multiple of three or the trailing incomplete
group starts with a non-digit line; a trailing group of one or two lines
whose first line is a digit literal instead aborts with an uncaught
`IndexError`. -/
theorem C4_parser_total (lines : List String) (token : String)
    (h : trailingSafe lines) :
    (kdenlive_format lines token).isSome = true := by
  unfold kdenlive_format
  split
  · simp
  · exact kdGo_safe token lines.length lines 0 [] le_rfl h

/-- Witness for C4: a corrupt triple before a valid one does not abort the
scan nor desynchronize it — six lines, the first triple corrupt, still
parse. -/
theorem C4_witness :
    trailingSafe ["not-num", "x", "y", "2", "00:00:03,000 --> 00:00:04,000",
        "Ok"]
      ∧ (kdenlive_format ["not-num", "x", "y", "2",
          "00:00:03,000 --> 00:00:04,000", "Ok"] "#WAIT:").isSome = true :=
  ⟨Or.inl (by decide),
    C4_parser_total _ "#WAIT:" (Or.inl (by decide))⟩

/-- C5, as stated, is false: a triple whose time-range line is invalid
still contributes its text line to the output, and a triple whose text
line is blank still contributes its timing token — the two checks are
independent, so partial cues are emitted. -/
theorem C5_counterexample :
    kdenlive_format ["1", "badtime", "Hello"] "#WAIT:" = some ["Hello"]
      ∧ kdenlive_format ["1", "00:00:01,000 --> 00:00:02,000", " "] "#WAIT:"
          = some ["#WAIT:1000.0"] := by decide

/-- C5 (amended): only the index-line check gates the whole triple (a
non-digit index line contributes nothing); within a digit-indexed triple
the timing token is emitted iff the time-range line is valid and the text
is emitted iff the stripped text line is non-empty, each independently of
the other, so a partially valid triple contributes exactly its valid
parts. -/
theorem C5_triple_contribution (token : String) (last : ℚ)
    (acc : List String) (l0 l1 l2 : String) :
    (pyIsDigit (pyStrip l0) = true →
      kdGo token last acc [l0, l1, l2] = some (acc ++
        (match extract_time_range (pyStrip l1) with
         | some (s, _) => [token ++ pyFloatStr (qSub s last)]
         | none => []) ++
        (if pyStrip l2 ≠ "" then [pyStrip l2] else [])))
    ∧ (pyIsDigit (pyStrip l0) = false →
        kdGo token last acc [l0, l1, l2] = some acc) := by
  constructor
  · intro hd
    rw [kdGo]
    simp only [hd, if_true]
    rcases htr : extract_time_range (pyStrip l1) with _ | ⟨s, e⟩ <;>
      by_cases htx : pyStrip l2 = "" <;>
        simp [kdGo, htr, htx]
  · intro hd
    rw [kdGo]
    simp [hd, kdGo]

/-- Witness for C5 (amended): a digit-indexed triple with a valid time
range and non-blank text contributes both parts. -/
theorem C5_witness :
    pyIsDigit (pyStrip "3") = true
      ∧ kdGo "#WAIT:" 0 [] ["3", "00:00:02,000 --> 00:00:03,000", "Hi"]
          = some ["#WAIT:2000.0", "Hi"] :=
  ⟨by decide,
    ((C5_triple_contribution "#WAIT:" 0 [] "3"
        "00:00:02,000 --> 00:00:03,000" "Hi").1 (by decide)).trans (by decide)⟩

/-- C6: on any non-empty sequence of well-formed cue triples the parser
acts as the planner the spec describes — in cue order, each cue emits a
wait token whose value is this cue's start minus the previous cue's start
(the first cue's minus zero), immediately followed by the cue's text. -/
theorem C6_planner (token : String) (cues : List CueLines)
    (hne : cues ≠ []) (hwf : ∀ c ∈ cues, wellFormedCue c) :
    kdenlive_format (cuesLines cues) token = some (planFrom token 0 cues) := by
  unfold kdenlive_format
  rw [if_neg, kdGo_wellFormed token cues 0 [] hwf]
  · simp
  · rw [cuesLines_length]
    cases cues with
    | nil => exact absurd rfl hne
    | cons c rest => simp

/-- The two cues of the spec's Scenario A. -/
def cuesScenarioA : List CueLines :=
  [⟨"1", "00:00:00,000 --> 00:00:05,000", "Hi", 0, 5000⟩,
   ⟨"2", "00:00:10,000 --> 00:00:15,000", "Bye", 10000, 15000⟩]

/-- Witness for C6: Scenario A of the spec — the planner emits
`Silence(0), Speech("Hi"), Silence(10000), Speech("Bye")`. -/
theorem C6_witness :
    kdenlive_format (cuesLines cuesScenarioA) "#WAIT:"
      = some ["#WAIT:0.0", "Hi", "#WAIT:10000.0", "Bye"] :=
  (C6_planner "#WAIT:" cuesScenarioA (by decide) (by decide)).trans (by decide)

/-! ## Lemmas about the assembly loop -/

/-- The ledger row of one segment. -/
def rowOf (s : Segment) : String := log_entry s.offset s.duration s.description

/-- Concatenation of a list of strings. -/
def concatRows (l : List String) : String := l.foldr (· ++ ·) ""

theorem concatRows_append (a b : List String) :
    concatRows (a ++ b) = concatRows a ++ concatRows b := by
  induction a with
  | nil => simp [concatRows, String.empty_append]
  | cons x xs ih => simp [concatRows] at ih ⊢; rw [ih, String.append_assoc]

/-- The loop invariant of the assembler: the segments chain from offset 0,
the clock equals the sum of the durations, the collected buffer durations
are exactly the segment durations, and the history is the header followed
by one row per segment. -/
def asmInv (st : AsmState) : Prop :=
  chainFromB 0 st.parts = true
    ∧ st.total = sumDur st.parts
    ∧ st.audioParts = st.parts.map Segment.duration
    ∧ st.history = histHeader ++ concatRows (st.parts.map rowOf)

theorem asmInit_inv : asmInv asmInit := by
  refine ⟨rfl, ?_, rfl, ?_⟩
  · simp [asmInit, sumDur]
  · simp [asmInit, concatRows, String.append_empty]

theorem sumDur_append (l : List Segment) (s : Segment) :
    sumDur (l ++ [s]) = sumDur l + s.duration := by
  simp [sumDur]

theorem chainFromB_append (s : Segment) :
    ∀ (l : List Segment) (c : ℚ), chainFromB c l = true →
      s.offset = c + sumDur l → chainFromB c (l ++ [s]) = true := by
  intro l
  induction l with
  | nil =>
    intro c _ hoff
    simp [sumDur] at hoff
    simp [chainFromB, hoff]
  | cons a l ih =>
    intro c hch hoff
    simp only [chainFromB, Bool.and_eq_true, decide_eq_true_eq] at hch
    obtain ⟨ha, hch⟩ := hch
    simp only [List.cons_append, chainFromB, Bool.and_eq_true,
      decide_eq_true_eq]
    refine ⟨ha, ih (c + a.duration) hch ?_⟩
    rw [hoff]
    simp [sumDur]
    ring

theorem stepTok_inv {synth : String → Option ℚ} {vf : Bool} {token : String}
    {st : AsmState} {line : String} {st₂ : AsmState}
    (h : stepTok synth vf token st line = some st₂) (hi : asmInv st) :
    asmInv st₂ := by
  obtain ⟨hc, ht, ha, hh⟩ := hi
  simp only [stepTok] at h
  split at h
  · rcases hg : parsePyFloat (pyReplace (pyStrip line) token "") with _ | g
    · rw [hg] at h; simp at h
    · rw [hg] at h
      simp only [] at h
      by_cases hpos : 0 < pyRound4 (qSub g st.lastDur)
      · rw [if_pos hpos, Option.some_inj] at h
        subst h
        refine ⟨?_, ?_, ?_, ?_⟩
        · exact chainFromB_append _ _ _ hc (by simp [ht])
        · simp [qAdd_eq, ht, sumDur_append]
        · simp [ha]
        · rw [AsmState.history, hh, List.map_append, concatRows_append,
            String.append_assoc]
          simp [concatRows, rowOf, String.append_empty]
      · rw [if_neg hpos, Option.some_inj] at h
        subst h
        exact ⟨hc, ht, ha, hh⟩
  · rcases hd : synth (pyStrip line) with _ | d
    · rw [hd] at h; simp at h
    · rw [hd] at h
      rw [Option.some_inj] at h
      subst h
      refine ⟨?_, ?_, ?_, ?_⟩
      · exact chainFromB_append _ _ _ hc (by simp [ht])
      · simp [qAdd_eq, ht, sumDur_append]
      · simp [ha]
      · rw [AsmState.history, hh, List.map_append, concatRows_append,
          String.append_assoc]
        simp [concatRows, rowOf, String.append_empty]

theorem runTokens_inv {synth : String → Option ℚ} {vf : Bool}
    {token : String} :
    ∀ (lines : List String) (st : AsmState), asmInv st →
      asmInv (runTokens synth vf token st lines).1 := by
  intro lines
  induction lines with
  | nil => intro st hi; exact hi
  | cons l ls ih =>
    intro st hi
    rw [runTokens]
    rcases hstep : stepTok synth vf token st l with _ | st₂
    · exact hi
    · exact ih st₂ (stepTok_inv hstep hi)

theorem stepTok_nonnegDur {synth : String → Option ℚ} {vf : Bool}
    {token : String} {st : AsmState} {line : String} {st₂ : AsmState}
    (hsynth : ∀ t d, synth t = some d → 0 ≤ d)
    (h : stepTok synth vf token st line = some st₂)
    (hn : allNonnegDur st.parts = true) : allNonnegDur st₂.parts = true := by
  simp only [stepTok] at h
  split at h
  · rcases hg : parsePyFloat (pyReplace (pyStrip line) token "") with _ | g
    · rw [hg] at h; simp at h
    · rw [hg] at h
      simp only [] at h
      by_cases hpos : 0 < pyRound4 (qSub g st.lastDur)
      · rw [if_pos hpos, Option.some_inj] at h
        subst h
        simp only [allNonnegDur, List.all_append, Bool.and_eq_true] at hn ⊢
        refine ⟨hn, ?_⟩
        simp only [List.all_cons, List.all_nil, Bool.and_true,
          decide_eq_true_eq]
        exact le_of_lt hpos
      · rw [if_neg hpos, Option.some_inj] at h
        subst h
        exact hn
  · rcases hd : synth (pyStrip line) with _ | d
    · rw [hd] at h; simp at h
    · rw [hd] at h
      rw [Option.some_inj] at h
      subst h
      simp only [allNonnegDur, List.all_append, Bool.and_eq_true] at hn ⊢
      refine ⟨hn, ?_⟩
      simp only [List.all_cons, List.all_nil, Bool.and_true,
        decide_eq_true_eq]
      exact hsynth _ _ hd

theorem runTokens_nonnegDur {synth : String → Option ℚ} {vf : Bool}
    {token : String} (hsynth : ∀ t d, synth t = some d → 0 ≤ d) :
    ∀ (lines : List String) (st : AsmState), allNonnegDur st.parts = true →
      allNonnegDur (runTokens synth vf token st lines).1.parts = true := by
  intro lines
  induction lines with
  | nil => intro st hn; exact hn
  | cons l ls ih =>
    intro st hn
    rw [runTokens]
    rcases hstep : stepTok synth vf token st l with _ | st₂
    · exact hn
    · exact ih st₂ (stepTok_nonnegDur hsynth hstep hn)

theorem chain_mono :
    ∀ (l : List Segment) (c : ℚ), chainFromB c l = true →
      allNonnegDur l = true →
      List.Chain' (fun a b => a.offset ≤ b.offset) l := by
  intro l
  induction l with
  | nil => intro c _ _; simp
  | cons s rest ih =>
    intro c hch hnn
    simp only [chainFromB, Bool.and_eq_true, decide_eq_true_eq] at hch
    obtain ⟨hoff, hch⟩ := hch
    simp only [allNonnegDur, List.all_cons, Bool.and_eq_true,
      decide_eq_true_eq] at hnn
    obtain ⟨hs, hnn⟩ := hnn
    cases rest with
    | nil => simp
    | cons t rest₂ =>
      rw [List.chain'_cons]
      refine ⟨?_, ih (c + s.duration) hch hnn⟩
      simp only [chainFromB, Bool.and_eq_true, decide_eq_true_eq] at hch
      rw [hoff, hch.1]
      linarith

theorem qSum_eq (l : List ℚ) : qSum l = l.sum := by
  induction l with
  | nil => rfl
  | cons x xs ih => simp [qSum, qAdd_eq] at ih ⊢; rw [ih]

theorem runTokens_append {synth : String → Option ℚ} {vf : Bool}
    {token : String} :
    ∀ (xs ys : List String) (st : AsmState),
      runTokens synth vf token st (xs ++ ys) =
        (if (runTokens synth vf token st xs).2
         then runTokens synth vf token (runTokens synth vf token st xs).1 ys
         else runTokens synth vf token st xs) := by
  intro xs
  induction xs with
  | nil => intro ys st; simp [runTokens]
  | cons l ls ih =>
    intro ys st
    simp only [List.cons_append, runTokens]
    rcases hstep : stepTok synth vf token st l with _ | st₂
    · simp
    · exact ih ys st₂

/-- Shape of a successful `text_to_speech` run: the loop finished with no
exception, audio parts exist, and each output field comes from the final
loop state. -/
theorem tts_ok_shape {synth : String → Option ℚ} {data : Data}
    (h : (text_to_speech synth data).ok = true) :
    ∃ st, runTokens synth data.mp3_voices data.token asmInit data.lines
        = (st, true)
      ∧ st.audioParts ≠ []
      ∧ (text_to_speech synth data).segments = st.parts
      ∧ (text_to_speech synth data).exportedDuration
          = some (qSum st.audioParts)
      ∧ (text_to_speech synth data).historyFile
          = (if st.history = "" then none else some st.history) := by
  rcases hrun : runTokens synth data.mp3_voices data.token asmInit data.lines
    with ⟨st, ok⟩
  simp only [text_to_speech, hrun] at h ⊢
  by_cases hval : data.validate
  · simp only [hval, Bool.not_true, Bool.false_eq_true, if_false] at h ⊢
    cases ok with
    | false => simp at h
    | true =>
      simp only [Bool.not_true, Bool.false_eq_true, if_false] at h ⊢
      by_cases hap : st.audioParts = []
      · simp [hap] at h
      · exact ⟨st, rfl, hap, by simp [hap], by simp [hap], by simp [hap]⟩
  · simp [hval] at h

/-! ## Claims C1, C2, C3, C7, C8, C9, C10 -/

/-- C1: in every successful run the rendered segments partition the final
track losslessly — the first offset is 0 and each offset is the previous
offset plus the previous duration (`chainFromB 0`), offsets are
non-decreasing, and the durations sum to the exported artifact's total
duration. -/
theorem C1_partition (synth : String → Option ℚ) (data : Data)
    (hsynth : ∀ t d, synth t = some d → 0 ≤ d)
    (hok : (text_to_speech synth data).ok = true) :
    chainFromB 0 (text_to_speech synth data).segments = true
      ∧ List.Chain' (fun a b => a.offset ≤ b.offset)
          (text_to_speech synth data).segments
      ∧ (text_to_speech synth data).exportedDuration
          = some (sumDur (text_to_speech synth data).segments) := by
  obtain ⟨st, hrun, hne, hseg, hexp, hhist⟩ := tts_ok_shape hok
  have hinv : asmInv st := by
    have h := @runTokens_inv synth data.mp3_voices data.token
      data.lines asmInit asmInit_inv
    rw [hrun] at h
    exact h
  have hnn : allNonnegDur st.parts = true := by
    have h := @runTokens_nonnegDur synth data.mp3_voices data.token
      hsynth data.lines asmInit (by rfl)
    rw [hrun] at h
    exact h
  obtain ⟨hc, ht, ha, hh⟩ := hinv
  rw [hseg, hexp]
  refine ⟨hc, chain_mono st.parts 0 hc hnn, ?_⟩
  rw [ha, qSum_eq]
  rfl

def synthW : String → Option ℚ := fun _ => some 1000

def dataW : Data :=
  { srt_path := "a.kdenlive.srt", mp3_path := "out.mp3",
    srt_format := "kdenlive", lines := ["#WAIT:500.0", "Hello"] }

/-- Witness for C1: a concrete successful run of one silence and one
speech token. -/
theorem C1_witness :
    (text_to_speech synthW dataW).ok = true
      ∧ chainFromB 0 (text_to_speech synthW dataW).segments = true
      ∧ List.Chain' (fun a b => a.offset ≤ b.offset)
          (text_to_speech synthW dataW).segments
      ∧ (text_to_speech synthW dataW).exportedDuration
          = some (sumDur (text_to_speech synthW dataW).segments) := by
  have hs : ∀ t d, synthW t = some d → 0 ≤ d := by
    intro t d h
    simp only [synthW, Option.some_inj] at h
    subst h
    norm_num
  have h := C1_partition synthW dataW hs (by decide)
  exact ⟨by decide, h.1, h.2.1, h.2.2⟩

/-- C2: on a wait token carrying gap `g`, with last speech duration `d`,
the assembler computes `a = round(g - d, 4)`; if `a > 0` it appends
exactly one silence segment of duration `a` at the current clock and
advances the clock by `a`; if `a ≤ 0` it appends nothing and leaves the
state unchanged; in both cases no appended segment has a negative
duration. -/
theorem C2_drift (synth : String → Option ℚ) (vf : Bool) (st : AsmState)
    (line : String) (g : ℚ)
    (hw : isWaitTok "#WAIT:" (pyStrip line) = true)
    (hg : parsePyFloat (pyReplace (pyStrip line) "#WAIT:" "") = some g) :
    (0 < pyRound4 (qSub g st.lastDur) →
      stepTok synth vf "#WAIT:" st line = some { st with
        audioParts := st.audioParts ++ [pyRound4 (qSub g st.lastDur)]
        parts := st.parts
          ++ [⟨st.total, pyRound4 (qSub g st.lastDur), "Silent."⟩]
        history := st.history
          ++ log_entry st.total (pyRound4 (qSub g st.lastDur)) "Silent."
        total := qAdd st.total (pyRound4 (qSub g st.lastDur)) })
    ∧ (pyRound4 (qSub g st.lastDur) ≤ 0 →
        stepTok synth vf "#WAIT:" st line = some st)
    ∧ (∀ st₂, stepTok synth vf "#WAIT:" st line = some st₂ →
        allNonnegDur st.parts = true → allNonnegDur st₂.parts = true) := by
  refine ⟨?_, ?_, ?_⟩
  · intro hpos
    simp only [stepTok, hw, if_true, hg]
    rw [if_pos hpos]
  · intro hle
    simp only [stepTok, hw, if_true, hg]
    rw [if_neg (not_lt.mpr hle)]
  · intro st₂ h hn
    simp only [stepTok, hw, if_true, hg] at h
    by_cases hpos : 0 < pyRound4 (qSub g st.lastDur)
    · rw [if_pos hpos, Option.some_inj] at h
      subst h
      simp only [allNonnegDur, List.all_append, Bool.and_eq_true] at hn ⊢
      refine ⟨hn, ?_⟩
      simp only [List.all_cons, List.all_nil, Bool.and_true,
        decide_eq_true_eq]
      exact le_of_lt hpos
    · rw [if_neg hpos, Option.some_inj] at h
      subst h
      exact hn

/-- Witness for C2: a wait token of 250 ms against a fresh state appends
one silence segment of 250 ms at offset 0. -/
theorem C2_witness :
    stepTok synthW false "#WAIT:" asmInit "#WAIT:250.0"
      = some { asmInit with
          audioParts := [250]
          parts := [⟨0, 250, "Silent."⟩]
          history := histHeader ++ log_entry 0 250 "Silent."
          total := 250 } := by
  have h := (C2_drift synthW false asmInit "#WAIT:250.0" 250
    (by decide) (by decide)).1 (by decide)
  rw [h]
  decide

/-- C3: a synthesis or decoding failure on any token aborts the whole
assembly — the run returns failure, no history ledger and no final audio
artifact are written, and the per-cue voice files recorded before the
failing token remain. -/
theorem C3_abort (synth : String → Option ℚ) (data : Data)
    (pre : List String) (bad : String) (post : List String)
    (stPre : AsmState)
    (hval : data.validate = true)
    (hlines : data.lines = pre ++ bad :: post)
    (hpre : runTokens synth data.mp3_voices data.token asmInit pre
      = (stPre, true))
    (hbad : stepTok synth data.mp3_voices data.token stPre bad = none) :
    text_to_speech synth data
      = ⟨false, none, none, stPre.voices, stPre.parts⟩ := by
  have hrun : runTokens synth data.mp3_voices data.token asmInit data.lines
      = (stPre, false) := by
    rw [hlines, runTokens_append, hpre]
    simp [runTokens, hbad]
  simp [text_to_speech, hval, hrun]

def synthF : String → Option ℚ := fun t => if t = "B" then none else some 1000

def dataF : Data :=
  { srt_path := "a.kdenlive.srt", mp3_path := "out.mp3",
    srt_format := "kdenlive", mp3_voices := true, lines := ["A", "B", "C"] }

/-- The state after synthesizing the first token `"A"` of `dataF`. -/
def stPreW : AsmState :=
  { counter := 2, total := 1000, lastDur := 1000, audioParts := [1000],
    parts := [⟨0, 1000, "A"⟩],
    history := histHeader ++ log_entry 0 1000 "A", voices := [(1, "A")] }

/-- Witness for C3: the spec's Scenario E with the failure on the second of
three speech tokens — the voice file of the first token remains, nothing
else is produced. -/
theorem C3_witness :
    text_to_speech synthF dataF
      = ⟨false, none, none, [(1, "A")], [⟨0, 1000, "A"⟩]⟩ := by
  have h := C3_abort synthF dataF ["A"] "B" ["C"] stPreW
    (by decide) (by decide) (by decide) (by decide)
  rw [h]
  decide

/-- C7: an empty token list makes the conversion fail up front — no
assembler invocation (the outcome is the same for every synthesis oracle),
no history ledger, no final audio, no voice clips. -/
theorem C7_empty_input (synth : String → Option ℚ) (data : Data)
    (h : data.lines = []) :
    text_to_speech synth data = ⟨false, none, none, [], []⟩ := by
  have hval : data.validate = false := by
    simp [Data.validate, h]
  simp [text_to_speech, hval]

def dataEmpty : Data :=
  { srt_path := "a.kdenlive.srt", mp3_path := "out.mp3",
    srt_format := "kdenlive", lines := [] }

/-- Witness for C7: a concrete empty-token run produces no artifacts. -/
theorem C7_witness :
    text_to_speech synthW dataEmpty = ⟨false, none, none, [], []⟩ :=
  C7_empty_input synthW dataEmpty rfl

def synthC8 : String → Option ℚ := fun _ => some 777

/-- C8, as stated, is false: the literal text `"#WAIT:100"` reaching the
assembler matches the wait-marker regex and is processed as a silence
instruction (one `"Silent."` segment of 100 ms, `last_duration_ms`
untouched, no voice file recorded even with voice copies enabled), not
synthesized as speech. -/
theorem C8_counterexample :
    (stepTok synthC8 true "#WAIT:" asmInit "#WAIT:100").map
        (fun s => (s.parts, s.lastDur, s.voices))
      = some ([⟨0, 100, "Silent."⟩], 0, []) := by decide

/-- C8 (amended): the assembler classifies a token by its surface string
alone — a stripped line matching the marker regex (`"#WAIT:"` followed by
at least one non-newline character) is processed as a silence instruction
regardless of the synthesis oracle, and any other line is synthesized as
speech; hence literal cue text beginning with the marker is misread as a
timing instruction. -/
theorem C8_classification (s₁ s₂ : String → Option ℚ) (vf : Bool)
    (st : AsmState) (line : String) :
    (isWaitTok "#WAIT:" (pyStrip line) = true →
      stepTok s₁ vf "#WAIT:" st line = stepTok s₂ vf "#WAIT:" st line)
    ∧ (isWaitTok "#WAIT:" (pyStrip line) = false →
      stepTok s₁ vf "#WAIT:" st line =
        (match s₁ (pyStrip line) with
         | none => none
         | some d => some { st with
             audioParts := st.audioParts ++ [d]
             parts := st.parts ++ [⟨st.total, d, pyStrip line⟩]
             lastDur := d
             history := st.history ++ log_entry st.total d (pyStrip line)
             total := qAdd st.total d
             counter := if vf then st.counter + 1 else st.counter
             voices := if vf then st.voices ++ [(st.counter, pyStrip line)]
                       else st.voices })) := by
  constructor
  · intro hw
    simp only [stepTok, hw, if_true]
  · intro hw
    simp only [stepTok, hw, Bool.false_eq_true, if_false]

def synthA : String → Option ℚ := fun _ => some 1

def synthB : String → Option ℚ := fun _ => some 2

/-- Witness for C8 (amended): a marker-matching token is processed
identically under two different synthesis oracles. -/
theorem C8_witness :
    stepTok synthA false "#WAIT:" asmInit "#WAIT:9.0"
      = stepTok synthB false "#WAIT:" asmInit "#WAIT:9.0" :=
  (C8_classification synthA synthB false asmInit "#WAIT:9.0").1 (by decide)

/-- C9: in every successful run the history ledger is the header line
`Time(ms);Duration(ms);Description` followed, in assembly order, by
exactly one row per rendered segment (`rowOf`/`log_entry`: the offset and
duration rendered with a comma as decimal separator, semicolon-separated
from the description). -/
theorem C9_ledger (synth : String → Option ℚ) (data : Data)
    (hok : (text_to_speech synth data).ok = true) :
    (text_to_speech synth data).historyFile
      = some (histHeader
          ++ concatRows ((text_to_speech synth data).segments.map rowOf)) := by
  obtain ⟨st, hrun, hne, hseg, hexp, hhist⟩ := tts_ok_shape hok
  have hinv : asmInv st := by
    have h := @runTokens_inv synth data.mp3_voices data.token
      data.lines asmInit asmInit_inv
    rw [hrun] at h
    exact h
  obtain ⟨_, _, _, hh⟩ := hinv
  rw [hhist, hseg, ← hh, if_neg]
  rw [hh]
  intro habs
  have hlen := congrArg String.length habs
  rw [String.length_append] at hlen
  have h34 : histHeader.length = 34 := by decide
  simp [h34] at hlen

/-- Witness for C9: the ledger of a concrete successful run. -/
theorem C9_witness :
    (text_to_speech synthW dataW).historyFile
      = some (histHeader
          ++ concatRows ((text_to_speech synthW dataW).segments.map rowOf)) :=
  C9_ledger synthW dataW (by decide)

/-- C10: processing a wait token never changes `last_duration_ms` (so
consecutive silences each subtract the same most recent speech duration
from their own planned gap), while a successfully synthesized speech token
sets it to the rendered duration. -/
theorem C10_silence_frame (synth : String → Option ℚ) (vf : Bool)
    (st : AsmState) (line : String) :
    (∀ st₂, isWaitTok "#WAIT:" (pyStrip line) = true →
      stepTok synth vf "#WAIT:" st line = some st₂ →
      st₂.lastDur = st.lastDur
        ∧ ∀ g₂, pyRound4 (qSub g₂ st₂.lastDur)
            = pyRound4 (qSub g₂ st.lastDur))
    ∧ (∀ st₂ d, isWaitTok "#WAIT:" (pyStrip line) = false →
      synth (pyStrip line) = some d →
      stepTok synth vf "#WAIT:" st line = some st₂ → st₂.lastDur = d) := by
  constructor
  · intro st₂ hw h
    simp only [stepTok, hw, if_true] at h
    rcases hg : parsePyFloat (pyReplace (pyStrip line) "#WAIT:" "")
      with _ | g
    · rw [hg] at h
      simp at h
    · rw [hg] at h
      simp only [] at h
      by_cases hpos : 0 < pyRound4 (qSub g st.lastDur)
      · rw [if_pos hpos, Option.some_inj] at h
        subst h
        exact ⟨rfl, fun _ => rfl⟩
      · rw [if_neg hpos, Option.some_inj] at h
        subst h
        exact ⟨rfl, fun _ => rfl⟩
  · intro st₂ d hw hd h
    simp only [stepTok, hw, Bool.false_eq_true, if_false, hd] at h
    rw [Option.some_inj] at h
    subst h
    rfl

/-- A state carrying a non-zero last speech duration, for the C10
witness. -/
def stLast77 : AsmState := { asmInit with lastDur := 77 }

/-- Witness for C10: a wait token leaves a non-zero `last_duration_ms`
untouched. -/
theorem C10_witness :
    (stepTok synthW false "#WAIT:" stLast77 "#WAIT:500.0").map
        AsmState.lastDur
      = some stLast77.lastDur := by
  rcases hstep : stepTok synthW false "#WAIT:" stLast77 "#WAIT:500.0"
    with _ | st₂
  · exact absurd hstep (by decide)
  · have h := ((C10_silence_frame synthW false stLast77 "#WAIT:500.0").1
      st₂ (by decide) hstep).1
    simp [h]

end SubTool
